import Mathlib

/-!
# Verification of the static-site content pipeline

A shallow embedding of the two-stage pipeline in `src/content.rs` and
`src/templates.rs`: content resolution (file text → structured `ContentFile`)
and template rendering (structured document → final HTML string).

Modelling conventions:
* Rust `String`/`&str` and paths are Lean `String`; all string manipulation is
  implemented structurally over `List Char` so that terms reduce in the kernel.
* The YAML engine (`gray_matter`'s `YAML`), the markdown converter
  (`pulldown_cmark`) and the template engine (`tera`) are external crates; they
  enter the embedding as explicit function parameters or, for the front-matter
  delimiter splitting, as a small model written from the documented contract.
* `f64` values inside front matter are modelled as rationals (`Rat`); the Rust
  cast `f as i64` is modelled as truncation toward zero clamped to the `i64`
  range, which is the cast's defined behavior on every non-NaN value (NaN,
  which the cast maps to 0, has no rational representative and is outside
  the model).
* `HashMap` values are modelled as association lists with unique keys;
  `HashMap::insert` is key-replacing insertion.
-/

namespace SiteGen

/-! ## Structural string utilities -/

/-- `listIsPre p l` is `true` iff the char list `p` is a prefix of `l`. -/
def listIsPre : List Char → List Char → Bool
  | [], _ => true
  | _ :: _, [] => false
  | p :: ps, c :: cs => p = c && listIsPre ps cs

/-- Rust `str::starts_with`: does `s` start with `pre`? -/
def strStartsWith (s pre : String) : Bool := listIsPre pre.data s.data

/-- Split a char list at every occurrence of the character `sep`. -/
def splitOnChar (sep : Char) : List Char → List (List Char)
  | [] => [[]]
  | c :: cs =>
    let r := splitOnChar sep cs
    if c = sep then [] :: r
    else
      match r with
      | [] => [[c]]
      | g :: gs => (c :: g) :: gs

/-- Split a char list at the FIRST occurrence of the contiguous separator
`sep`, returning the parts before and after it; `none` if `sep` does not
occur. -/
def breakOnSub (sep : List Char) : List Char → Option (List Char × List Char)
  | [] => none
  | c :: cs =>
    if listIsPre sep (c :: cs) then some ([], (c :: cs).drop sep.length)
    else
      match breakOnSub sep cs with
      | some (pre, post) => some (c :: pre, post)
      | none => none

/-- Split a file name at its last dot: `some (before, after)` when a dot
occurs, `none` otherwise. -/
def splitLastDot (cs : List Char) : Option (List Char × List Char) :=
  match (cs.reverse).span (fun c => c ≠ '.') with
  | (_, []) => none
  | (afterRev, _ :: beforeRev) => some (beforeRev.reverse, afterRev.reverse)

/-- Join path components with `/` separators. -/
def joinSlash : List String → String
  | [] => ""
  | [c] => c
  | c :: cs => c ++ "/" ++ joinSlash cs

/-! ## gray_matter `Pod` and `serde_yaml::Value` -/

/-- `gray_matter::Pod`: the dynamically shaped value produced by the YAML
front-matter engine. `Integer` carries `i64` (modelled as `Int`), `Float`
carries `f64` (modelled as `Rat`), `Hash` carries a `HashMap<String, Pod>`
(modelled as an association list). -/
inductive Pod where
  | string (s : String)
  | integer (n : Int)
  | float (q : Rat)
  | boolean (b : Bool)
  | array (xs : List Pod)
  | hash (m : List (String × Pod))
  | null

/-- A `serde_yaml` number: integer or floating. (The code under verification
only ever constructs the integer form.) -/
inductive YNumber where
  | int (n : Int)
  | float (q : Rat)

/-- `serde_yaml::Value`. -/
inductive YamlValue where
  | null
  | bool (b : Bool)
  | number (n : YNumber)
  | string (s : String)
  | sequence (xs : List YamlValue)
  | mapping (m : List (YamlValue × YamlValue))

/-- Truncation toward zero of a rational: T-division of numerator by
denominator. -/
def ratTruncI (q : Rat) : Int := q.num.tdiv q.den

/-- `i64::MAX`. -/
def i64Max : Int := 9223372036854775807

/-- `i64::MIN`. -/
def i64Min : Int := -9223372036854775808

/-- The Rust cast `f as i64` on the rational model of an `f64`: truncation
toward zero, saturating at the `i64` bounds. (On the real `f64` type the
cast additionally maps NaN to 0; NaN has no rational representative and is
outside this model.) -/
def rustCastI64 (q : Rat) : Int := max i64Min (min i64Max (ratTruncI q))

mutual
/-- `pod_to_yaml_value` (content.rs lines 10–26): convert a `Pod` into a
`serde_yaml::Value`; floats are narrowed with `f as i64`
(the source's "Approximate conversion"). -/
def pod_to_yaml_value : Pod → YamlValue
  | .string s => .string s
  | .integer n => .number (.int n)
  | .float q => .number (.int (rustCastI64 q))
  | .boolean b => .bool b
  | .array xs => .sequence (podListToYaml xs)
  | .hash m => .mapping (podMapToYaml m)
  | .null => .null

/-- Elementwise conversion of `Pod` arrays (the `map` in the `Array` arm). -/
def podListToYaml : List Pod → List YamlValue
  | [] => []
  | x :: xs => pod_to_yaml_value x :: podListToYaml xs

/-- Entrywise conversion of `Pod` hashes (the loop in the `Hash` arm); keys
become `Value::String`. -/
def podMapToYaml : List (String × Pod) → List (YamlValue × YamlValue)
  | [] => []
  | (k, v) :: rest => (.string k, pod_to_yaml_value v) :: podMapToYaml rest
end

/-! ## Association lists (model of `HashMap`) -/

/-- Lookup in an association list (model of `HashMap::get`). -/
def alLookup {α : Type} (k : String) : List (String × α) → Option α
  | [] => none
  | (k', v) :: rest => if k' = k then some v else alLookup k rest

/-- Key-replacing insertion (model of `HashMap::insert`). -/
def alInsert {α : Type} (k : String) (v : α) : List (String × α) → List (String × α)
  | [] => [(k, v)]
  | (k', v') :: rest => if k' = k then (k, v) :: rest else (k', v') :: alInsert k v rest

/-- `stringPod v` is the string carried by `v` when `v` is `Pod::String`,
and `none` otherwise — the shape test of the `if let Pod::String(s)` arms. -/
def stringPod : Pod → Option String
  | .string s => some s
  | _ => none

/-! ## Front matter -/

/-- `FrontMatter` (content.rs lines 28–35): three first-class optional string
fields plus the open `extra` mapping of the remaining keys. -/
structure FrontMatter where
  title : Option String
  layout : Option String
  lang : Option String
  extra : List (String × YamlValue)

/-- The empty front matter (all fields `None`, empty `extra`). -/
def emptyFrontMatter : FrontMatter :=
  { title := none, layout := none, lang := none, extra := [] }

/-- One iteration of the key loop in `ContentFile::from_path`
(content.rs lines 64–74): a recognized key (`title`/`layout`/`lang`) is
captured only when its value is a plain string, otherwise the iteration
leaves the accumulator unchanged; every other key is inserted into `extra`
after `pod_to_yaml_value` conversion. -/
def fmStep (fm : FrontMatter) (kv : String × Pod) : FrontMatter :=
  if kv.1 = "title" then
    match kv.2 with
    | .string s => { fm with title := some s }
    | _ => fm
  else if kv.1 = "layout" then
    match kv.2 with
    | .string s => { fm with layout := some s }
    | _ => fm
  else if kv.1 = "lang" then
    match kv.2 with
    | .string s => { fm with lang := some s }
    | _ => fm
  else
    { fm with extra := alInsert kv.1 (pod_to_yaml_value kv.2) fm.extra }

/-- The full key loop of `ContentFile::from_path` over a parsed
`Pod::Hash` map (content.rs lines 56–76). -/
def buildFrontMatter (pairs : List (String × Pod)) : FrontMatter :=
  pairs.foldl fmStep emptyFrontMatter

/-- The front-matter match in `ContentFile::from_path` (content.rs lines
54–91): a parsed `Pod::Hash` is walked by the key loop; any other parse
result (non-mapping data, or no front-matter block at all) yields the empty
front matter. -/
def frontMatterOfData : Option Pod → FrontMatter
  | some (.hash m) => buildFrontMatter m
  | some _ => emptyFrontMatter
  | none => emptyFrontMatter

/-! ## Front-matter block splitting (external `gray_matter` crate) -/

/-- Modelled from the spec: the delimiter splitting performed by the external
`gray_matter` crate (not part of this repository's sources). A front-matter
block is a region at the very start of the file delimited by `---` lines
(spec §4.1: "delimited region at the start of the file"; §2.6: "optional
leading front-matter block"). `matterSplit text = some (inner, body)` when a
block is present (`inner` the raw block, `body` the remaining text after the
closing delimiter line); `none` when the text carries no front-matter block,
in which case the whole text is body. -/
def matterSplit (text : String) : Option (String × String) :=
  if listIsPre ("---\n".data) text.data then
    let rest := text.data.drop 4
    match breakOnSub ("\n---\n".data) rest with
    | some (inner, body) => some (String.mk inner, String.mk body)
    | none =>
      if listIsPre ("---\n".data) rest.reverse then
        some (String.mk ((rest.reverse.drop 4).reverse), "")
      else none
  else none

/-- The external front-matter parse (`Matter::<YAML>::new().parse`): splits
off the delimited block and runs the YAML engine — passed in as the function
parameter `yaml` — on it. Returns `(data, content)` as in
`gray_matter::ParsedEntity`. -/
def matterParse (yaml : String → Pod) (text : String) : Option Pod × String :=
  match matterSplit text with
  | some (inner, body) => (some (yaml inner), body)
  | none => (none, text)

/-! ## Paths -/

/-- Path components of a `/`-separated path string, after the normalization
Rust's `Path::components` performs: empty and `.` chunks are dropped; a
leading `/` becomes the root marker component. -/
def pathComps (s : String) : List String :=
  let comps := (splitOnChar '/' s.data).map String.mk
  let comps := comps.filter (fun c => ¬ (c = "" ∨ c = "."))
  if strStartsWith s "/" then "/" :: comps else comps

/-- Component-wise prefix removal: `dropComps root p = some rest` when the
component list `root` is a prefix of `p`, with `rest` the remaining
components. -/
def dropComps : List String → List String → Option (List String)
  | [], rest => some rest
  | _ :: _, [] => none
  | r :: rs, c :: cs => if c = r then dropComps rs cs else none

/-- Rust `Path::strip_prefix` as used at content.rs line 105 (an `Err` there
becomes the resolver's path error). -/
def stripSourceRoot (p root : String) : Option String :=
  (dropComps (pathComps root) (pathComps p)).map joinSlash

/-- Rust `Path::file_name`: the last normal component; `..` (and the empty
path) have no file name. -/
def rustFileName (p : String) : Option String :=
  let comps := ((splitOnChar '/' p.data).map String.mk).filter
    (fun c => ¬ (c = "" ∨ c = "."))
  match comps.reverse with
  | [] => none
  | c :: _ => if c = ".." then none else some c

/-- Rust `Path::file_stem`: the file name up to (not including) its last dot;
a name whose only dot is leading (for example `.hidden`) is its own stem. -/
def rustFileStem (p : String) : Option String :=
  (rustFileName p).map fun name =>
    match splitLastDot name.data with
    | none => name
    | some ([], _) => name
    | some (before, _) => String.mk before

/-! ## `ContentFile` and resolution -/

/-- `ContentFile` (content.rs lines 37–46). -/
structure ContentFile where
  path : String
  relative_path : String
  front_matter : FrontMatter
  content : String
  html_content : String
  collection : Option String
  language : String

/-- `ContentFile::extract_collection_and_language` (content.rs lines
119–127): collection is `Some("pages")` exactly when the relative path
starts with `_pages`; the language is always the fixed default `"en"`. -/
def extract_collection_and_language (path : String) : Option String × String :=
  if strStartsWith path "_pages" then (some "pages", "en") else (none, "en")

/-- The resolver's error type (the pure core can only fail on
`strip_prefix`; the I/O read error of the real `from_path` is outside the
embedding, which takes the file text as the parameter `text`). -/
inductive ResolveError where
  | pathError

/-- `ContentFile::from_path` (content.rs lines 49–117), as a pure function of
the file text. The external YAML engine and the markdown converter
(`pulldown_cmark` with the fixed option set, deterministic and total) are the
function parameters `yaml` and `md`. -/
def from_path (yaml : String → Pod) (md : String → String)
    (path source_root text : String) : Except ResolveError ContentFile :=
  let result := matterParse yaml text
  let front_matter := frontMatterOfData result.1
  let html_output := md result.2
  match stripSourceRoot path source_root with
  | none => .error .pathError
  | some relative_path =>
    let cl := extract_collection_and_language relative_path
    .ok { path := path, relative_path := relative_path,
          front_matter := front_matter, content := result.2,
          html_content := html_output, collection := cl.1, language := cl.2 }

/-- `ContentFile::get_output_path` (content.rs lines 129–135): the public URL
derived from the file stem. Note the `base_url` parameter is unused by the
source (`_base_url`) and there is no special case for the `index` stem. -/
def get_output_path (cf : ContentFile) (_base_url : String) : String :=
  let stem := (rustFileStem cf.path).getD "index"
  "/" ++ stem ++ "/"

/-- `ContentFile::get_file_path` (content.rs lines 137–152): the output file
path, modelled as the list of components pushed onto the `PathBuf`. -/
def get_file_path (cf : ContentFile) : List String :=
  let stem := (rustFileStem cf.path).getD "index"
  if stem = "index" then ["index.html"] else [stem, "index.html"]

/-- `ContentFile::get_language_urls` (content.rs lines 154–167): the
single-entry language→URL mapping; stem `index` maps to the site root. -/
def get_language_urls (cf : ContentFile) : List (String × String) :=
  let stem := (rustFileStem cf.path).getD "index"
  if stem = "index" then [("en", "/")] else [("en", "/" ++ stem ++ "/")]

/-! ## `serde_json::Value` and the template engine -/

/-- `serde_json::Value` (numbers restricted to the integer form, the only one
these claims touch). -/
inductive JsonValue where
  | null
  | bool (b : Bool)
  | num (n : Int)
  | str (s : String)
  | arr (xs : List JsonValue)
  | obj (fields : List (String × JsonValue))

/-- `serde_json::Value::get` with a string index: key lookup on an object,
`None` on every other shape. -/
def jsonGet (v : JsonValue) (k : String) : Option JsonValue :=
  match v with
  | .obj fields => alLookup k fields
  | _ => none

/-- `serde_json::Value::as_str`. -/
def asStr : JsonValue → Option String
  | .str s => some s
  | _ => none

/-- The `relative_url` filter registered in `TemplateEngine::new`
(templates.rs lines 30–44): a string value beginning with `/` is prefixed
with the `base_url` argument (defaulting to `""` when the argument is absent
or not a string); any other value passes through unchanged. -/
def relative_url (value : JsonValue) (args : List (String × JsonValue)) : JsonValue :=
  match value with
  | .str url =>
    let base_url := ((alLookup "base_url" args).bind asStr).getD ""
    if strStartsWith url "/" then .str (base_url ++ url) else .str url
  | v => v

/-- One entry of a tera render context. Each `Context::insert` in
`render_content` serializes a value of a different Rust type; the sum keeps
the inserted values as they are instead of inventing a serialization. -/
inductive CtxValue where
  | ofFrontMatter (fm : FrontMatter)
  | ofString (s : String)
  | ofJson (v : JsonValue)
  | ofDataTable (d : List (String × JsonValue))
  | ofUrls (u : List (String × String))

/-- A tera render context: the keys inserted, in insertion order (all keys
inserted by `render_content` are distinct, so ordered pairs model
`Context` faithfully). -/
def Context := List (String × CtxValue)

/-- The template engine. The external `tera` renderer is modelled as the
function `teraRender`, which takes a template name and a context and either
renders a string or fails with the engine's diagnostic (a missing template
name and a render-time expression error both land in the `Except.error`
case, as they do in `Tera::render`). `data` is the auxiliary-data table
loaded from `_data` at construction. -/
structure TemplateEngine where
  teraRender : String → Context → Except String String
  data : List (String × JsonValue)

/-- The rendering error type: `render_content` wraps the engine diagnostic
in an `anyhow` error with the fixed prefix. -/
inductive RenderError where
  | templateError (msg : String)

/-- The context assembly of `TemplateEngine::render_content` (templates.rs
lines 94–111): `page`, `content`, `site`, `data`, `lang`, then `t` only when
the data table has a `translations` entry containing the document's
language, then `language_urls`. -/
def buildContext (data : List (String × JsonValue)) (cf : ContentFile)
    (site : JsonValue) : Context :=
  [("page", CtxValue.ofFrontMatter cf.front_matter),
   ("content", CtxValue.ofString cf.html_content),
   ("site", CtxValue.ofJson site),
   ("data", CtxValue.ofDataTable data),
   ("lang", CtxValue.ofString cf.language)]
  ++ (match alLookup "translations" data with
      | some translations =>
        match jsonGet translations cf.language with
        | some t => [("t", CtxValue.ofJson t)]
        | none => []
      | none => [])
  ++ [("language_urls", CtxValue.ofUrls (get_language_urls cf))]

/-- `TemplateEngine::render_content` (templates.rs lines 93–122): build the
context, pick the template `<layout>.html` (layout defaulting to
`"default"`), render, and wrap any engine failure in the fixed-prefix
template error. -/
def render_content (eng : TemplateEngine) (cf : ContentFile)
    (site : JsonValue) : Except RenderError String :=
  let context := buildContext eng.data cf site
  let layout := (cf.front_matter.layout).getD "default"
  let template_name := layout ++ ".html"
  match eng.teraRender template_name context with
  | .ok s => .ok s
  | .error e => .error (.templateError ("Template rendering error: " ++ e))

/-- `podHash m` is the mapping carried by `m` when it is `Pod::Hash`,
`none` otherwise — the shape test of the outer front-matter `match`. -/
def podHash : Pod → Option (List (String × Pod))
  | .hash m => some m
  | _ => none

/-! ## Concrete fixtures used by witnesses -/

/-- A resolved document whose source file has stem `index`. -/
def cfIndex : ContentFile :=
  { path := "index.md", relative_path := "index.md",
    front_matter := emptyFrontMatter, content := "", html_content := "",
    collection := none, language := "en" }

/-- A resolved document for `/site/_pages/about.md` with no layout in its
front matter. -/
def cfAbout : ContentFile :=
  { path := "/site/_pages/about.md", relative_path := "_pages/about.md",
    front_matter := emptyFrontMatter, content := "# Hi",
    html_content := "<h1>Hi</h1>\n", collection := some "pages",
    language := "en" }

/-- A front-matter mapping exercising a recognized string key, a recognized
key with a non-string value, and an open key. -/
def demoPairs : List (String × Pod) :=
  [("title", Pod.string "About"), ("layout", Pod.integer 3),
   ("count", Pod.integer 2)]

/-- A front-matter mapping with a float-valued open key. -/
def floatPairs : List (String × Pod) :=
  [("pi", Pod.float ((5 : Rat) / 2))]

/-- A front-matter mapping whose float value `2^64` lies above `i64::MAX`,
so the Rust cast saturates instead of truncating. -/
def bigFloatPairs : List (String × Pod) :=
  [("big", Pod.float (18446744073709551616 : Rat))]

/-! ## Helper lemmas: association lists -/

theorem alLookup_alInsert_self {α : Type} (k : String) (v : α) (l : List (String × α)) :
    alLookup k (alInsert k v l) = some v := by
  induction l with
  | nil => simp [alInsert, alLookup]
  | cons hd tl ih =>
    obtain ⟨k', v'⟩ := hd
    by_cases h : k' = k
    · simp [alInsert, h, alLookup]
    · simp [alInsert, h, alLookup, ih]

theorem alLookup_alInsert_ne {α : Type} (k k' : String) (v : α) (l : List (String × α))
    (h : k' ≠ k) : alLookup k (alInsert k' v l) = alLookup k l := by
  induction l with
  | nil => simp [alInsert, alLookup, h]
  | cons hd tl ih =>
    obtain ⟨k'', v''⟩ := hd
    by_cases h2 : k'' = k'
    · simp [alInsert, h2, alLookup, h]
    · simp [alInsert, h2, alLookup, ih]

/-! ## Helper lemmas: one step of the front-matter key loop -/

theorem fmStep_title_of_ne (fm : FrontMatter) (kv : String × Pod) (h : kv.1 ≠ "title") :
    (fmStep fm kv).title = fm.title := by
  obtain ⟨k, v⟩ := kv
  simp only [fmStep]
  rw [if_neg h]
  by_cases h2 : k = "layout"
  · rw [if_pos h2]; cases v <;> rfl
  · rw [if_neg h2]
    by_cases h3 : k = "lang"
    · rw [if_pos h3]; cases v <;> rfl
    · rw [if_neg h3]

theorem fmStep_layout_of_ne (fm : FrontMatter) (kv : String × Pod) (h : kv.1 ≠ "layout") :
    (fmStep fm kv).layout = fm.layout := by
  obtain ⟨k, v⟩ := kv
  simp only [fmStep]
  by_cases h1 : k = "title"
  · rw [if_pos h1]; cases v <;> rfl
  · rw [if_neg h1, if_neg h]
    by_cases h3 : k = "lang"
    · rw [if_pos h3]; cases v <;> rfl
    · rw [if_neg h3]

theorem fmStep_lang_of_ne (fm : FrontMatter) (kv : String × Pod) (h : kv.1 ≠ "lang") :
    (fmStep fm kv).lang = fm.lang := by
  obtain ⟨k, v⟩ := kv
  simp only [fmStep]
  by_cases h1 : k = "title"
  · rw [if_pos h1]; cases v <;> rfl
  · rw [if_neg h1]
    by_cases h2 : k = "layout"
    · rw [if_pos h2]; cases v <;> rfl
    · rw [if_neg h2, if_neg h]

theorem fmStep_extra_of_reserved (fm : FrontMatter) (kv : String × Pod)
    (h : kv.1 = "title" ∨ kv.1 = "layout" ∨ kv.1 = "lang") :
    (fmStep fm kv).extra = fm.extra := by
  obtain ⟨k, v⟩ := kv
  simp only [fmStep]
  rcases h with h | h | h
  · rw [if_pos h]; cases v <;> rfl
  · have h1 : ¬ k = "title" := by rw [show k = "layout" from h]; decide
    rw [if_neg h1, if_pos h]; cases v <;> rfl
  · have h1 : ¬ k = "title" := by rw [show k = "lang" from h]; decide
    have h2 : ¬ k = "layout" := by rw [show k = "lang" from h]; decide
    rw [if_neg h1, if_neg h2, if_pos h]; cases v <;> rfl

theorem fmStep_extra_of_other (fm : FrontMatter) (kv : String × Pod)
    (h1 : kv.1 ≠ "title") (h2 : kv.1 ≠ "layout") (h3 : kv.1 ≠ "lang") :
    (fmStep fm kv).extra = alInsert kv.1 (pod_to_yaml_value kv.2) fm.extra := by
  obtain ⟨k, v⟩ := kv
  simp only [fmStep]
  rw [if_neg h1, if_neg h2, if_neg h3]

/-! ## Helper lemmas: the whole key loop -/

theorem foldl_fmStep_title_of_not_mem (pairs : List (String × Pod)) (fm : FrontMatter)
    (h : "title" ∉ pairs.map Prod.fst) :
    (pairs.foldl fmStep fm).title = fm.title := by
  induction pairs generalizing fm with
  | nil => rfl
  | cons hd tl ih =>
    simp only [List.map_cons, List.mem_cons] at h
    push_neg at h
    rw [List.foldl_cons, ih _ (h.2), fmStep_title_of_ne fm hd (Ne.symm h.1)]

theorem foldl_fmStep_layout_of_not_mem (pairs : List (String × Pod)) (fm : FrontMatter)
    (h : "layout" ∉ pairs.map Prod.fst) :
    (pairs.foldl fmStep fm).layout = fm.layout := by
  induction pairs generalizing fm with
  | nil => rfl
  | cons hd tl ih =>
    simp only [List.map_cons, List.mem_cons] at h
    push_neg at h
    rw [List.foldl_cons, ih _ (h.2), fmStep_layout_of_ne fm hd (Ne.symm h.1)]

theorem foldl_fmStep_lang_of_not_mem (pairs : List (String × Pod)) (fm : FrontMatter)
    (h : "lang" ∉ pairs.map Prod.fst) :
    (pairs.foldl fmStep fm).lang = fm.lang := by
  induction pairs generalizing fm with
  | nil => rfl
  | cons hd tl ih =>
    simp only [List.map_cons, List.mem_cons] at h
    push_neg at h
    rw [List.foldl_cons, ih _ (h.2), fmStep_lang_of_ne fm hd (Ne.symm h.1)]

theorem foldl_fmStep_extra_reserved (pairs : List (String × Pod)) (fm : FrontMatter)
    (k : String) (hk : k = "title" ∨ k = "layout" ∨ k = "lang") :
    alLookup k (pairs.foldl fmStep fm).extra = alLookup k fm.extra := by
  induction pairs generalizing fm with
  | nil => rfl
  | cons hd tl ih =>
    rw [List.foldl_cons, ih]
    by_cases hr : hd.1 = "title" ∨ hd.1 = "layout" ∨ hd.1 = "lang"
    · rw [fmStep_extra_of_reserved fm hd hr]
    · push_neg at hr
      rw [fmStep_extra_of_other fm hd hr.1 hr.2.1 hr.2.2]
      refine alLookup_alInsert_ne k hd.1 _ _ ?_
      rcases hk with hk | hk | hk <;> rw [hk]
      · exact hr.1
      · exact hr.2.1
      · exact hr.2.2

theorem foldl_fmStep_extra_of_not_mem (pairs : List (String × Pod)) (fm : FrontMatter)
    (k : String) (h : k ∉ pairs.map Prod.fst) :
    alLookup k (pairs.foldl fmStep fm).extra = alLookup k fm.extra := by
  induction pairs generalizing fm with
  | nil => rfl
  | cons hd tl ih =>
    simp only [List.map_cons, List.mem_cons] at h
    push_neg at h
    rw [List.foldl_cons, ih _ (h.2)]
    by_cases hr : hd.1 = "title" ∨ hd.1 = "layout" ∨ hd.1 = "lang"
    · rw [fmStep_extra_of_reserved fm hd hr]
    · push_neg at hr
      rw [fmStep_extra_of_other fm hd hr.1 hr.2.1 hr.2.2]
      exact alLookup_alInsert_ne k hd.1 _ _ (Ne.symm h.1)

theorem nodup_split_keys {s t : List (String × Pod)} {k : String} {v : Pod}
    (h : (((s ++ (k, v) :: t).map Prod.fst)).Nodup) :
    k ∉ s.map Prod.fst ∧ k ∉ t.map Prod.fst := by
  rw [List.map_append, List.map_cons, List.nodup_append] at h
  obtain ⟨_, h2, h3⟩ := h
  rw [List.nodup_cons] at h2
  exact ⟨fun hk => h3 hk (List.mem_cons_self _ _), h2.1⟩

theorem buildFrontMatter_title (pairs : List (String × Pod))
    (hnd : (pairs.map Prod.fst).Nodup) (v : Pod) (hm : ("title", v) ∈ pairs) :
    (buildFrontMatter pairs).title = stringPod v := by
  obtain ⟨s, t, rfl⟩ := List.append_of_mem hm
  obtain ⟨hs, ht⟩ := nodup_split_keys hnd
  unfold buildFrontMatter
  rw [List.foldl_append, List.foldl_cons, foldl_fmStep_title_of_not_mem _ _ ht]
  have hA : (s.foldl fmStep emptyFrontMatter).title = none :=
    foldl_fmStep_title_of_not_mem _ _ hs
  cases v <;> simp [fmStep, stringPod, hA]

theorem buildFrontMatter_layout (pairs : List (String × Pod))
    (hnd : (pairs.map Prod.fst).Nodup) (v : Pod) (hm : ("layout", v) ∈ pairs) :
    (buildFrontMatter pairs).layout = stringPod v := by
  obtain ⟨s, t, rfl⟩ := List.append_of_mem hm
  obtain ⟨hs, ht⟩ := nodup_split_keys hnd
  unfold buildFrontMatter
  rw [List.foldl_append, List.foldl_cons, foldl_fmStep_layout_of_not_mem _ _ ht]
  have hA : (s.foldl fmStep emptyFrontMatter).layout = none :=
    foldl_fmStep_layout_of_not_mem _ _ hs
  cases v <;> simp [fmStep, stringPod, hA]

theorem buildFrontMatter_lang (pairs : List (String × Pod))
    (hnd : (pairs.map Prod.fst).Nodup) (v : Pod) (hm : ("lang", v) ∈ pairs) :
    (buildFrontMatter pairs).lang = stringPod v := by
  obtain ⟨s, t, rfl⟩ := List.append_of_mem hm
  obtain ⟨hs, ht⟩ := nodup_split_keys hnd
  unfold buildFrontMatter
  rw [List.foldl_append, List.foldl_cons, foldl_fmStep_lang_of_not_mem _ _ ht]
  have hA : (s.foldl fmStep emptyFrontMatter).lang = none :=
    foldl_fmStep_lang_of_not_mem _ _ hs
  cases v <;> simp [fmStep, stringPod, hA]

theorem buildFrontMatter_extra_reserved (pairs : List (String × Pod)) (k : String)
    (hk : k = "title" ∨ k = "layout" ∨ k = "lang") :
    alLookup k (buildFrontMatter pairs).extra = none := by
  unfold buildFrontMatter
  rw [foldl_fmStep_extra_reserved _ _ _ hk]
  rfl

theorem buildFrontMatter_extra_other (pairs : List (String × Pod))
    (hnd : (pairs.map Prod.fst).Nodup) (k : String) (v : Pod)
    (hk1 : k ≠ "title") (hk2 : k ≠ "layout") (hk3 : k ≠ "lang")
    (hm : (k, v) ∈ pairs) :
    alLookup k (buildFrontMatter pairs).extra = some (pod_to_yaml_value v) := by
  obtain ⟨s, t, rfl⟩ := List.append_of_mem hm
  obtain ⟨hs, ht⟩ := nodup_split_keys hnd
  unfold buildFrontMatter
  rw [List.foldl_append, List.foldl_cons, foldl_fmStep_extra_of_not_mem _ _ _ ht,
    fmStep_extra_of_other _ _ hk1 hk2 hk3, alLookup_alInsert_self]

/-! ## Helper lemmas: truncation and non-mapping front matter -/

theorem ratTruncI_eq_floor (q : Rat) (h : 0 ≤ q) : ratTruncI q = ⌊q⌋ := by
  rw [Rat.floor_def, ratTruncI,
    Int.tdiv_eq_ediv (Rat.num_nonneg.mpr h) (by positivity)]

theorem ratTruncI_eq_ceil (q : Rat) (h : q < 0) : ratTruncI q = ⌈q⌉ := by
  have hnum : q.num < 0 := Rat.num_neg.mpr h
  have key : q.num.tdiv q.den = -((-q.num).tdiv q.den) := by
    have h0 := Int.neg_tdiv (-q.num) (q.den : Int)
    rwa [neg_neg] at h0
  have h2 : (-q.num).tdiv q.den = (-q.num) / (q.den : Int) :=
    Int.tdiv_eq_ediv (by omega) (by positivity)
  have h3 : ⌈q⌉ = -⌊-q⌋ := by rw [Int.floor_neg]; ring
  rw [ratTruncI, key, h2, h3, Rat.floor_def, Rat.neg_num, Rat.neg_den]

theorem frontMatterOfData_of_not_hash (p : Pod) (h : podHash p = none) :
    frontMatterOfData (some p) = emptyFrontMatter := by
  cases p <;> simp_all [podHash, frontMatterOfData]

/-! ## Claim theorems -/

/-- Claim C1 (code bug): the spec requires stem `index` to yield URL `/`,
and indeed `get_file_path` and `get_language_urls` both special-case the
`index` stem (output file `index.html` at the output root, language URL `/`),
but `get_output_path` has no such case: for a file with stem `index` it
returns `/index/`, a URL inconsistent with the file the sibling functions
place at the site root. This theorem evaluates the code at the failing
input, exhibiting the divergence and the internal inconsistency. -/
theorem get_output_path_index_divergence :
    get_output_path cfIndex "" = "/index/" ∧
    get_file_path cfIndex = ["index.html"] ∧
    get_language_urls cfIndex = [("en", "/")] := by
  refine ⟨by decide, by decide, by decide⟩

/-- Claim C3: a content file whose text has no front-matter block resolves
(whenever the path check succeeds) to a document with empty front matter
(all three first-class fields absent, empty `extra`) and a body equal to the
full file text verbatim. -/
theorem no_front_matter_spec (yaml : String → Pod) (md : String → String)
    (path root text rel : String)
    (hm : matterSplit text = none)
    (hs : stripSourceRoot path root = some rel) :
    (from_path yaml md path root text).map
        (fun cf => (cf.front_matter, cf.content))
      = .ok (emptyFrontMatter, text) := by
  simp only [from_path, matterParse, hm, hs, Except.map]
  rfl

/-- Witness for C3: a concrete file `/s/a.md` under root `/s` whose text
`hello` has no front-matter block. -/
theorem no_front_matter_spec_witness :
    (from_path (fun _ => Pod.null) id "/s/a.md" "/s" "hello").map
        (fun cf => (cf.front_matter, cf.content))
      = .ok (emptyFrontMatter, "hello") :=
  no_front_matter_spec (fun _ => Pod.null) id "/s/a.md" "/s" "hello" "a.md"
    (by decide) (by decide)

/-- Claim C5: for every resolved document, `collection` is `Some("pages")`
exactly when the relative path begins with `_pages` and is `None`
otherwise, and `language` is always the fixed default `"en"`. -/
theorem collection_language_spec (yaml : String → Pod) (md : String → String)
    (path root text : String) (cf : ContentFile)
    (h : from_path yaml md path root text = .ok cf) :
    (cf.collection = some "pages" ↔ strStartsWith cf.relative_path "_pages" = true) ∧
    (strStartsWith cf.relative_path "_pages" = false → cf.collection = none) ∧
    cf.language = "en" := by
  simp only [from_path] at h
  cases hs : stripSourceRoot path root with
  | none => rw [hs] at h; exact absurd h (by simp)
  | some rel =>
    rw [hs] at h
    simp only [Except.ok.injEq] at h
    subst h
    simp only [extract_collection_and_language]
    by_cases hp : strStartsWith rel "_pages" = true
    · simp [hp]
    · rw [Bool.not_eq_true] at hp
      simp [hp]

/-- Witness for C5: resolving `/site/_pages/about.md` under root `/site`. -/
theorem collection_language_spec_witness :
    ((ContentFile.mk "/site/_pages/about.md" "_pages/about.md"
        emptyFrontMatter "hi" "hi" (some "pages") "en").collection = some "pages" ↔
      strStartsWith (ContentFile.mk "/site/_pages/about.md" "_pages/about.md"
        emptyFrontMatter "hi" "hi" (some "pages") "en").relative_path "_pages" = true) ∧
    (strStartsWith (ContentFile.mk "/site/_pages/about.md" "_pages/about.md"
        emptyFrontMatter "hi" "hi" (some "pages") "en").relative_path "_pages" = false →
      (ContentFile.mk "/site/_pages/about.md" "_pages/about.md"
        emptyFrontMatter "hi" "hi" (some "pages") "en").collection = none) ∧
    (ContentFile.mk "/site/_pages/about.md" "_pages/about.md"
        emptyFrontMatter "hi" "hi" (some "pages") "en").language = "en" :=
  collection_language_spec (fun _ => Pod.null) id "/site/_pages/about.md" "/site" "hi"
    (ContentFile.mk "/site/_pages/about.md" "_pages/about.md"
      emptyFrontMatter "hi" "hi" (some "pages") "en") rfl

/-- Claim C9: `get_output_path` ignores its base-url argument entirely — the
derived URL is a function of the file stem alone. -/
theorem get_output_path_base_independent (cf : ContentFile) (b1 b2 : String) :
    get_output_path cf b1 = get_output_path cf b2 := rfl

/-- Claim C10: a front-matter block that parses to a non-mapping `Pod`
(sequence, scalar, …) does not fail resolution: the document gets a
completely empty front matter and the body is the text after the delimited
block. -/
theorem non_mapping_front_matter_spec (yaml : String → Pod) (md : String → String)
    (path root text inner body rel : String)
    (hm : matterSplit text = some (inner, body))
    (hh : podHash (yaml inner) = none)
    (hs : stripSourceRoot path root = some rel) :
    (from_path yaml md path root text).map
        (fun cf => (cf.front_matter, cf.content))
      = .ok (emptyFrontMatter, body) := by
  simp only [from_path, matterParse, hm, hs, Except.map]
  simp [frontMatterOfData_of_not_hash (yaml inner) hh]

/-- Witness for C10: a file whose front-matter block `foo` parses to a
(non-mapping) YAML sequence. -/
theorem non_mapping_front_matter_spec_witness :
    (from_path (fun _ => Pod.array []) id "/s/a.md" "/s"
        "---\nfoo\n---\nbody").map (fun cf => (cf.front_matter, cf.content))
      = .ok (emptyFrontMatter, "body") :=
  non_mapping_front_matter_spec (fun _ => Pod.array []) id "/s/a.md" "/s"
    "---\nfoo\n---\nbody" "foo" "body" "a.md" (by decide) rfl (by decide)

/-- Claim C2: in every front matter built from a parsed mapping (whose keys
are unique, being a `HashMap`), the keys `title`/`layout`/`lang` never
appear in `extra`; a recognized key with a string value lands exactly in its
first-class field; a recognized key with a non-string value is dropped (its
field stays `None` and `extra` does not get it); every other key is placed
in `extra` (value converted by `pod_to_yaml_value`). -/
theorem front_matter_fields_spec (pairs : List (String × Pod))
    (hnd : (pairs.map Prod.fst).Nodup) :
    (∀ k, (k = "title" ∨ k = "layout" ∨ k = "lang") →
        alLookup k (buildFrontMatter pairs).extra = none) ∧
    (∀ s, ("title", Pod.string s) ∈ pairs → (buildFrontMatter pairs).title = some s) ∧
    (∀ s, ("layout", Pod.string s) ∈ pairs → (buildFrontMatter pairs).layout = some s) ∧
    (∀ s, ("lang", Pod.string s) ∈ pairs → (buildFrontMatter pairs).lang = some s) ∧
    (∀ v, ("title", v) ∈ pairs → stringPod v = none → (buildFrontMatter pairs).title = none) ∧
    (∀ v, ("layout", v) ∈ pairs → stringPod v = none → (buildFrontMatter pairs).layout = none) ∧
    (∀ v, ("lang", v) ∈ pairs → stringPod v = none → (buildFrontMatter pairs).lang = none) ∧
    (∀ k v, (k, v) ∈ pairs → ¬ (k = "title" ∨ k = "layout" ∨ k = "lang") →
        alLookup k (buildFrontMatter pairs).extra = some (pod_to_yaml_value v)) := by
  refine ⟨fun k hk => buildFrontMatter_extra_reserved pairs k hk,
    fun s hm => ?_, fun s hm => ?_, fun s hm => ?_,
    fun v hm hv => ?_, fun v hm hv => ?_, fun v hm hv => ?_,
    fun k v hm hk => ?_⟩
  · rw [buildFrontMatter_title pairs hnd _ hm]; rfl
  · rw [buildFrontMatter_layout pairs hnd _ hm]; rfl
  · rw [buildFrontMatter_lang pairs hnd _ hm]; rfl
  · rw [buildFrontMatter_title pairs hnd _ hm, hv]
  · rw [buildFrontMatter_layout pairs hnd _ hm, hv]
  · rw [buildFrontMatter_lang pairs hnd _ hm, hv]
  · push_neg at hk
    exact buildFrontMatter_extra_other pairs hnd k v hk.1 hk.2.1 hk.2.2 hm

/-- Witness for C2: a mapping with a string `title`, an integer `layout`
(dropped) and an open key `count`. -/
theorem front_matter_fields_spec_witness :
    alLookup "layout" (buildFrontMatter demoPairs).extra = none ∧
    (buildFrontMatter demoPairs).title = some "About" ∧
    (buildFrontMatter demoPairs).layout = none ∧
    alLookup "count" (buildFrontMatter demoPairs).extra
      = some (pod_to_yaml_value (Pod.integer 2)) := by
  have h := front_matter_fields_spec demoPairs (by decide)
  refine ⟨h.1 "layout" (Or.inr (Or.inl rfl)), ?_, ?_, ?_⟩
  · exact h.2.1 "About" (List.Mem.head _)
  · exact h.2.2.2.2.2.1 (Pod.integer 3)
      (List.Mem.tail _ (List.Mem.head _)) rfl
  · exact h.2.2.2.2.2.2.2 "count" (Pod.integer 2)
      (List.Mem.tail _ (List.Mem.tail _ (List.Mem.head _))) (by decide)

/-- Claim C4 counterexample: the claim asserts the stored integer is the
truncation of the float with no range restriction, but for the reachable
front-matter value `2^64` the Rust cast `f as i64` saturates: the code
stores `i64::MAX = 9223372036854775807`, which differs from the truncation
`2^64`. -/
theorem float_narrowing_counterexample :
    alLookup "big" (buildFrontMatter bigFloatPairs).extra
      = some (.number (.int 9223372036854775807)) ∧
    ratTruncI (18446744073709551616 : Rat) = 18446744073709551616 ∧
    (9223372036854775807 : Int) ≠ 18446744073709551616 := by
  refine ⟨?_, by decide, by decide⟩
  rfl

/-- Claim C4 as amended: an open (non-recognized) front-matter key holding a
float `q` is stored in `extra` as the integer `rustCastI64 q` — truncation
toward zero (the floor for nonnegative `q`, the ceiling for negative `q`)
clamped to the `i64` range, equal to the plain truncation whenever that
truncation lies within the range — never as a floating value; the other
shapes convert to the corresponding generic value recursively. -/
theorem float_narrowing_spec (pairs : List (String × Pod))
    (hnd : (pairs.map Prod.fst).Nodup) (k : String) (q : Rat)
    (hk : ¬ (k = "title" ∨ k = "layout" ∨ k = "lang"))
    (hm : (k, Pod.float q) ∈ pairs) :
    (alLookup k (buildFrontMatter pairs).extra
        = some (.number (.int (rustCastI64 q)))) ∧
    (i64Min ≤ ratTruncI q → ratTruncI q ≤ i64Max → rustCastI64 q = ratTruncI q) ∧
    (i64Max < ratTruncI q → rustCastI64 q = i64Max) ∧
    (ratTruncI q < i64Min → rustCastI64 q = i64Min) ∧
    (0 ≤ q → ratTruncI q = ⌊q⌋) ∧
    (q < 0 → ratTruncI q = ⌈q⌉) ∧
    (∀ s, pod_to_yaml_value (Pod.string s) = .string s) ∧
    (∀ n, pod_to_yaml_value (Pod.integer n) = .number (.int n)) ∧
    (∀ b, pod_to_yaml_value (Pod.boolean b) = .bool b) ∧
    (pod_to_yaml_value Pod.null = .null) ∧
    (∀ xs, pod_to_yaml_value (Pod.array xs) = .sequence (podListToYaml xs)) ∧
    (∀ m, pod_to_yaml_value (Pod.hash m) = .mapping (podMapToYaml m)) := by
  push_neg at hk
  refine ⟨?_, fun h1 h2 => ?_, fun h => ?_, fun h => ?_,
    ratTruncI_eq_floor q, ratTruncI_eq_ceil q,
    fun s => rfl, fun n => rfl, fun b => rfl, rfl, fun xs => rfl, fun m => rfl⟩
  · rw [buildFrontMatter_extra_other pairs hnd k _ hk.1 hk.2.1 hk.2.2 hm]
    rfl
  · rw [rustCastI64, min_eq_right h2, max_eq_right h1]
  · rw [rustCastI64, min_eq_left (le_of_lt h),
      max_eq_right (by decide : i64Min ≤ i64Max)]
  · have hle : ratTruncI q ≤ i64Max :=
      le_of_lt (lt_of_lt_of_le h (by decide : i64Min ≤ i64Max))
    rw [rustCastI64, min_eq_right hle, max_eq_left (le_of_lt h)]

/-- Witness for C4 (amended): the open key `pi` holding the float `5/2`. -/
theorem float_narrowing_spec_witness :
    (alLookup "pi" (buildFrontMatter floatPairs).extra
        = some (.number (.int (rustCastI64 ((5 : Rat) / 2))))) ∧
    (i64Min ≤ ratTruncI ((5 : Rat) / 2) → ratTruncI ((5 : Rat) / 2) ≤ i64Max →
        rustCastI64 ((5 : Rat) / 2) = ratTruncI ((5 : Rat) / 2)) ∧
    (i64Max < ratTruncI ((5 : Rat) / 2) → rustCastI64 ((5 : Rat) / 2) = i64Max) ∧
    (ratTruncI ((5 : Rat) / 2) < i64Min → rustCastI64 ((5 : Rat) / 2) = i64Min) ∧
    (0 ≤ ((5 : Rat) / 2) → ratTruncI ((5 : Rat) / 2) = ⌊((5 : Rat) / 2)⌋) ∧
    (((5 : Rat) / 2) < 0 → ratTruncI ((5 : Rat) / 2) = ⌈((5 : Rat) / 2)⌉) ∧
    (∀ s, pod_to_yaml_value (Pod.string s) = .string s) ∧
    (∀ n, pod_to_yaml_value (Pod.integer n) = .number (.int n)) ∧
    (∀ b, pod_to_yaml_value (Pod.boolean b) = .bool b) ∧
    (pod_to_yaml_value Pod.null = .null) ∧
    (∀ xs, pod_to_yaml_value (Pod.array xs) = .sequence (podListToYaml xs)) ∧
    (∀ m, pod_to_yaml_value (Pod.hash m) = .mapping (podMapToYaml m)) :=
  float_narrowing_spec floatPairs (by decide) "pi" ((5 : Rat) / 2)
    (by decide) (List.Mem.head _)

/-- Claim C6: `render_content` consults exactly the template named
`<layout>.html`, where the layout is `front_matter.layout` when present and
the literal `default` when absent; an engine failure on that template
(missing template or render-time expression error) surfaces as a
`TemplateError` wrapping the engine's diagnostic, and an engine success
surfaces as the rendered string. -/
theorem render_template_selection_spec (eng : TemplateEngine) (cf : ContentFile)
    (site : JsonValue) :
    (∀ e, eng.teraRender (((cf.front_matter.layout).getD "default") ++ ".html")
          (buildContext eng.data cf site) = .error e →
        render_content eng cf site
          = .error (.templateError ("Template rendering error: " ++ e))) ∧
    (∀ s, eng.teraRender (((cf.front_matter.layout).getD "default") ++ ".html")
          (buildContext eng.data cf site) = .ok s →
        render_content eng cf site = .ok s) := by
  constructor <;> intro x hx <;> simp [render_content, hx]

/-- Witness for C6: a document without a layout against an engine whose
renderer rejects every template name; the consulted template is
`default.html` and the failure is wrapped. -/
theorem render_template_selection_spec_witness :
    render_content (TemplateEngine.mk (fun _ _ => .error "nope") []) cfAbout .null
      = .error (.templateError ("Template rendering error: " ++ "nope")) :=
  (render_template_selection_spec
    (TemplateEngine.mk (fun _ _ => .error "nope") []) cfAbout .null).1 "nope" rfl

/-- Claim C7: the context key `t` is present exactly when the
auxiliary-data table has a `translations` entry containing an entry for the
document's language; then `t` is bound to that sub-table. When either
lookup fails the context is simply built without `t` (context assembly is
total, so no error arises from the missing entry). -/
theorem translations_context_spec (data : List (String × JsonValue))
    (cf : ContentFile) (site : JsonValue) :
    (∀ translations t, alLookup "translations" data = some translations →
        jsonGet translations cf.language = some t →
        alLookup "t" (buildContext data cf site) = some (CtxValue.ofJson t)) ∧
    (alLookup "translations" data = none →
        alLookup "t" (buildContext data cf site) = none) ∧
    (∀ translations, alLookup "translations" data = some translations →
        jsonGet translations cf.language = none →
        alLookup "t" (buildContext data cf site) = none) := by
  refine ⟨fun translations t h1 h2 => ?_, fun h1 => ?_,
    fun translations h1 h2 => ?_⟩
  · simp only [buildContext]; rw [h1]; dsimp only; rw [h2]; rfl
  · simp only [buildContext]; rw [h1]; rfl
  · simp only [buildContext]; rw [h1]; dsimp only; rw [h2]; rfl

/-- Witness for C7: a data table whose `translations` entry has an `en`
sub-table, and a document whose language is `en`. -/
theorem translations_context_spec_witness :
    alLookup "t" (buildContext
        [("translations", JsonValue.obj [("en", JsonValue.str "hi")])]
        cfAbout .null)
      = some (CtxValue.ofJson (JsonValue.str "hi")) :=
  (translations_context_spec
    [("translations", JsonValue.obj [("en", JsonValue.str "hi")])]
    cfAbout .null).1 (JsonValue.obj [("en", JsonValue.str "hi")])
    (JsonValue.str "hi") rfl rfl

/-- Claim C8: the `relative_url` filter prefixes a string value beginning
with `/` with the `base_url` argument; a string not beginning with `/`, and
every non-string value, pass through unchanged. -/
theorem relative_url_filter_spec (value : JsonValue)
    (args : List (String × JsonValue)) :
    (∀ url base, value = .str url →
        alLookup "base_url" args = some (JsonValue.str base) →
        strStartsWith url "/" = true →
        relative_url value args = .str (base ++ url)) ∧
    (∀ url, value = .str url → strStartsWith url "/" = false →
        relative_url value args = value) ∧
    (asStr value = none → relative_url value args = value) := by
  refine ⟨fun url base hv hb hs => ?_, fun url hv hs => ?_, fun hv => ?_⟩
  · subst hv; simp [relative_url, hb, asStr, hs]
  · subst hv; simp [relative_url, hs]
  · cases value <;> simp_all [relative_url, asStr]

/-- Witness for C8: `/foo` with base `/blog` becomes `/blog/foo`. -/
theorem relative_url_filter_spec_witness :
    relative_url (JsonValue.str "/foo") [("base_url", JsonValue.str "/blog")]
      = .str ("/blog" ++ "/foo") :=
  (relative_url_filter_spec (JsonValue.str "/foo")
    [("base_url", JsonValue.str "/blog")]).1 "/foo" "/blog" rfl rfl (by decide)

end SiteGen
